import Mathlib

/-!
Verification of the capsule-network face-recognition repository
(`capsnet/activations.py`, `capsnet/network.py`).

Tensors are modelled per-slice along the reduced axis: an operation the
source applies with `axis=-1` (and broadcasting of the resulting scale)
acts independently on each last-axis slice, so one slice is embedded as a
vector `Fin n → ℝ`.  Machine floats are modelled as real numbers; the
Keras fuzz factor `k.epsilon() = 1e-7` is the constant `kEps`.
-/

/-- Keras backend fuzz factor `k.epsilon()`, the default `1e-7`. -/
noncomputable def kEps : ℝ := 1 / 10 ^ 7

lemma kEps_pos : 0 < kEps := by norm_num [kEps]

/-- Squared Euclidean norm of one last-axis slice: `k.sum(k.square(input), axis, keepdims=True)`
from `squash` in `capsnet/activations.py`. -/
noncomputable def sqnorm {n : ℕ} (v : Fin n → ℝ) : ℝ := ∑ i, v i ^ 2

/-- The `squash` activation from `capsnet/activations.py`:
`scale = s_norm / (1 + s_norm) / k.sqrt(s_norm + k.epsilon())` and the
result is `scale * input`, the scale broadcast over the squash axis. -/
noncomputable def squash {n : ℕ} (v : Fin n → ℝ) : Fin n → ℝ :=
  fun i => sqnorm v / (1 + sqnorm v) / Real.sqrt (sqnorm v + kEps) * v i

/-- Euclidean norm of a slice, used to state the `‖squash v‖ < 1` property. -/
noncomputable def vecNorm {n : ℕ} (v : Fin n → ℝ) : ℝ := Real.sqrt (sqnorm v)

/-- The `length` function from `capsnet/activations.py`:
`k.sqrt(k.sum(k.square(inputs), -1) + k.epsilon())`, acting on one
last-axis slice. -/
noncomputable def length {n : ℕ} (v : Fin n → ℝ) : ℝ := Real.sqrt (sqnorm v + kEps)

/-- The per-epoch learning-rate schedule passed to
`cbs.LearningRateScheduler` in `CapsNet.train`
(`capsnet/network.py` line 218): `lambda e: lr * (lr_decay ** e)`.
It is a function of the epoch index alone. -/
noncomputable def lrSchedule (lr decay : ℝ) (e : ℕ) : ℝ := lr * decay ^ e

lemma sqnorm_nonneg {n : ℕ} (v : Fin n → ℝ) : 0 ≤ sqnorm v :=
  Finset.sum_nonneg fun i _ => sq_nonneg (v i)

lemma sqnorm_scaled {n : ℕ} (c : ℝ) (v : Fin n → ℝ) :
    sqnorm (fun i => c * v i) = c ^ 2 * sqnorm v := by
  unfold sqnorm
  rw [Finset.mul_sum]
  exact Finset.sum_congr rfl fun i _ => by ring

lemma sqnorm_squash {n : ℕ} (v : Fin n → ℝ) :
    sqnorm (squash v) =
      (sqnorm v / (1 + sqnorm v) / Real.sqrt (sqnorm v + kEps)) ^ 2 * sqnorm v :=
  sqnorm_scaled _ v

/-- C3: for every slice `v` with nonzero squared norm along the squash
axis, `squash v` has Euclidean norm strictly below `1` and equals a
strictly positive scalar multiple of `v` (same direction); and on the
zero slice the denominator `sqrt(s + ε)` is strictly positive (so no
division by zero occurs) and `squash 0 = 0`, a finite value. -/
theorem squash_norm_lt_one_parallel {n : ℕ} (v : Fin n → ℝ) (hv : sqnorm v ≠ 0) :
    (vecNorm (squash v) < 1 ∧ ∃ c : ℝ, 0 < c ∧ squash v = c • v) ∧
      (0 < Real.sqrt (sqnorm (fun _ : Fin n => (0 : ℝ)) + kEps) ∧
        squash (fun _ : Fin n => (0 : ℝ)) = fun _ => 0) := by
  have hs0 : 0 ≤ sqnorm v := sqnorm_nonneg v
  have hs : 0 < sqnorm v := lt_of_le_of_ne hs0 (Ne.symm hv)
  set s : ℝ := sqnorm v with hsdef
  have hden : 0 < Real.sqrt (s + kEps) := Real.sqrt_pos.mpr (by linarith [kEps_pos])
  have hscale : 0 < s / (1 + s) / Real.sqrt (s + kEps) := by positivity
  constructor
  · constructor
    · have hnorm : vecNorm (squash v) =
          s / (1 + s) / Real.sqrt (s + kEps) * Real.sqrt s := by
        unfold vecNorm
        rw [sqnorm_squash v, ← hsdef, Real.sqrt_mul (sq_nonneg _), Real.sqrt_sq hscale.le]
      rw [hnorm]
      have h1 : s / (1 + s) < 1 := (div_lt_one (by linarith)).mpr (by linarith)
      have h2 : Real.sqrt s / Real.sqrt (s + kEps) < 1 :=
        (div_lt_one hden).mpr (Real.sqrt_lt_sqrt hs0 (by linarith [kEps_pos]))
      have hrw : s / (1 + s) / Real.sqrt (s + kEps) * Real.sqrt s =
          s / (1 + s) * (Real.sqrt s / Real.sqrt (s + kEps)) := by ring
      rw [hrw]
      have h1n : 0 ≤ s / (1 + s) := by positivity
      calc s / (1 + s) * (Real.sqrt s / Real.sqrt (s + kEps))
          ≤ s / (1 + s) * 1 := by
            exact mul_le_mul_of_nonneg_left h2.le h1n
        _ = s / (1 + s) := mul_one _
        _ < 1 := h1
    · refine ⟨s / (1 + s) / Real.sqrt (s + kEps), hscale, ?_⟩
      funext i
      simp [squash, ← hsdef, Pi.smul_apply, smul_eq_mul]
  · constructor
    · have hz : sqnorm (fun _ : Fin n => (0 : ℝ)) = 0 := by simp [sqnorm]
      rw [hz, zero_add]
      exact Real.sqrt_pos.mpr kEps_pos
    · funext i
      simp [squash]

/-- Witness for C3: the concrete one-dimensional slice `v = ![1]` has
nonzero squared norm, and the theorem applies to it. -/
theorem squash_norm_lt_one_parallel_witness :
    (vecNorm (squash (fun _ : Fin 1 => (1 : ℝ))) < 1 ∧
      ∃ c : ℝ, 0 < c ∧ squash (fun _ : Fin 1 => (1 : ℝ)) = c • fun _ => (1 : ℝ)) ∧
      (0 < Real.sqrt (sqnorm (fun _ : Fin 1 => (0 : ℝ)) + kEps) ∧
        squash (fun _ : Fin 1 => (0 : ℝ)) = fun _ => 0) :=
  squash_norm_lt_one_parallel (fun _ : Fin 1 => (1 : ℝ)) (by norm_num [sqnorm])

/-- C4: `length v` equals `sqrt(sum v² + ε)`, is non-negative for every
slice `v`, and on the zero slice it equals `sqrt ε` exactly. -/
theorem length_formula_nonneg_zero :
    (∀ (n : ℕ) (v : Fin n → ℝ), length v = Real.sqrt (sqnorm v + kEps) ∧ 0 ≤ length v) ∧
      ∀ n : ℕ, length (fun _ : Fin n => (0 : ℝ)) = Real.sqrt kEps := by
  refine ⟨fun n v => ⟨rfl, Real.sqrt_nonneg _⟩, fun n => ?_⟩
  have hz : sqnorm (fun _ : Fin n => (0 : ℝ)) = 0 := by simp [sqnorm]
  rw [length, hz, zero_add]

/-- C5: the learning-rate schedule satisfies `lr 0 = lr0` and
`lr n = lr0 * decay ^ n` for every epoch index `n`; it is a function of
the epoch index alone, independent of the number of batches. -/
theorem lrSchedule_correct (lr decay : ℝ) :
    lrSchedule lr decay 0 = lr ∧ ∀ n : ℕ, lrSchedule lr decay n = lr * decay ^ n :=
  ⟨by simp [lrSchedule], fun n => rfl⟩

/-- Modelled from the spec: the improvement test of the checkpoint
callback built in `CapsNet.train` (`capsnet/network.py` lines 219-222,
`cbs.ModelCheckpoint(..., save_best_only=True)` monitoring
`val_capsnet_acc`); the callback class itself is external library code.
A checkpoint is written only when the monitored value strictly exceeds
the best seen so far; before any epoch there is no best value (`none`),
so the first epoch always improves. -/
def improves (best : Option ℚ) (cur : ℚ) : Bool :=
  match best with
  | none => true
  | some b => decide (b < cur)

/-- Modelled from the spec: epochs (0-based, `i` is the index of the next
epoch) at which the checkpoint callback writes a weights file, given the
per-epoch monitored validation accuracies.  The best-so-far value is
updated exactly when a checkpoint is written. -/
def ckptEpochs : Option ℚ → ℕ → List ℚ → List ℕ
  | _, _, [] => []
  | best, i, a :: rest =>
    if improves best a then i :: ckptEpochs (some a) (i + 1) rest
    else ckptEpochs best (i + 1) rest

/-- The best-so-far monitored value after consuming a list of epochs. -/
def runBest : Option ℚ → List ℚ → Option ℚ
  | best, [] => best
  | best, a :: rest => runBest (if improves best a then some a else best) rest

lemma improves_update (best : Option ℚ) (b a : ℚ) :
    improves (if improves best b then some b else best) a =
      (improves best a && decide (b < a)) := by
  cases best with
  | none => simp [improves]
  | some c =>
    by_cases hcb : c < b
    · by_cases hba : b < a
      · simp [improves, hcb, hba, lt_trans hcb hba]
      · simp [improves, hcb, hba]
    · by_cases hca : c < a
      · have hba : b < a := lt_of_le_of_lt (not_lt.mp hcb) hca
        simp [improves, hcb, hca, hba]
      · simp [improves, hcb, hca]

lemma improves_runBest (l : List ℚ) (best : Option ℚ) (a : ℚ) :
    improves (runBest best l) a = (improves best a && decide (∀ x ∈ l, x < a)) := by
  induction l generalizing best with
  | nil => simp [runBest]
  | cons b rest ih =>
    rw [runBest, ih, improves_update]
    by_cases hba : b < a
    · simp [hba, Bool.and_assoc]
    · simp [hba]

lemma mem_ckptEpochs (l : List ℚ) (best : Option ℚ) (k i : ℕ) :
    i ∈ ckptEpochs best k l ↔
      ∃ m, m < l.length ∧ i = k + m ∧
        improves (runBest best (l.take m)) (l.getD m 0) = true := by
  induction l generalizing best k with
  | nil => simp [ckptEpochs]
  | cons a rest ih =>
    rw [ckptEpochs]
    constructor
    · intro hmem
      by_cases h : improves best a = true
      · rw [if_pos h] at hmem
        rcases List.mem_cons.mp hmem with hk | htail
        · exact ⟨0, by simp, by omega, by simpa [runBest] using h⟩
        · rcases (ih (some a) (k + 1)).mp htail with ⟨m, hm, hi, himp⟩
          refine ⟨m + 1, by simpa using Nat.succ_lt_succ hm, by omega, ?_⟩
          simpa [List.take_succ_cons, runBest, h] using himp
      · rw [if_neg h] at hmem
        rcases (ih best (k + 1)).mp hmem with ⟨m, hm, hi, himp⟩
        refine ⟨m + 1, by simpa using Nat.succ_lt_succ hm, by omega, ?_⟩
        simpa [List.take_succ_cons, runBest, h] using himp
    · rintro ⟨m, hm, hi, himp⟩
      cases m with
      | zero =>
        have h : improves best a = true := by simpa [runBest] using himp
        rw [if_pos h]
        exact List.mem_cons.mpr (Or.inl (by omega))
      | succ m' =>
        have hm' : m' < rest.length := by simpa using Nat.lt_of_succ_lt_succ hm
        by_cases h : improves best a = true
        · rw [if_pos h]
          refine List.mem_cons.mpr (Or.inr ?_)
          refine (ih (some a) (k + 1)).mpr ⟨m', hm', by omega, ?_⟩
          simpa [List.take_succ_cons, runBest, h] using himp
        · rw [if_neg h]
          refine (ih best (k + 1)).mpr ⟨m', hm', by omega, ?_⟩
          simpa [List.take_succ_cons, runBest, h] using himp

/-- C6: a weights checkpoint is written in epoch `i` if and only if that
epoch's monitored validation accuracy strictly exceeds every earlier
epoch's (i.e. it strictly improves on the best seen so far); for the run
with per-epoch validation accuracies `[0.5, 0.7, 0.6, 0.8]`, checkpoints
are written exactly after epochs 0, 1 and 3, i.e. exactly 3 checkpoints
(accuracies 0.5, 0.7, 0.8), not 4. -/
theorem ckpt_saved_iff_strict_improvement :
    (∀ (accs : List ℚ) (i : ℕ),
      i ∈ ckptEpochs none 0 accs ↔
        i < accs.length ∧ ∀ x ∈ accs.take i, x < accs.getD i 0) ∧
      ckptEpochs none 0 [1/2, 7/10, 3/5, 4/5] = [0, 1, 3] ∧
      (ckptEpochs none 0 [1/2, 7/10, 3/5, 4/5]).length = 3 := by
  refine ⟨fun accs i => ?_, by norm_num [ckptEpochs, improves], by norm_num [ckptEpochs, improves]⟩
  rw [mem_ckptEpochs]
  constructor
  · rintro ⟨m, hm, hi, himp⟩
    subst hi
    rw [improves_runBest] at himp
    simp only [improves, Bool.true_and, decide_eq_true_eq] at himp
    exact ⟨by omega, by simpa using himp⟩
  · rintro ⟨hi, hall⟩
    refine ⟨i, hi, by omega, ?_⟩
    rw [improves_runBest]
    simp only [improves, Bool.true_and, decide_eq_true_eq]
    exact fun x hx => hall x (by simpa using hx)

/-- Output shape of `layers.Conv2D` with `padding=valid`: each spatial
dimension becomes `(d - kernel) / strides + 1` (floor division) and the
channel count becomes `filters`.  Shapes are lists `[batch, ...dims]`. -/
def conv2dValidShape (filters kernel strides : ℕ) : List ℕ → List ℕ
  | [b, h, w, _] => [b, (h - kernel) / strides + 1, (w - kernel) / strides + 1, filters]
  | s => s

/-- Output shape of `layers.Conv2D` with `padding=same` and stride 1:
spatial dimensions unchanged, channel count becomes `filters`. -/
def conv2dSameShape (filters : ℕ) : List ℕ → List ℕ
  | [b, h, w, _] => [b, h, w, filters]
  | s => s

/-- `layers.Dropout` preserves the shape. -/
def dropoutShape (s : List ℕ) : List ℕ := s

/-- `layers.Activation` preserves the shape. -/
def activationShape (s : List ℕ) : List ℕ := s

/-- Output shape of `layers.Dense`: last dimension becomes `units`. -/
def denseShape (units : ℕ) : List ℕ → List ℕ
  | [b, _] => [b, units]
  | s => s

/-- Output shape of `layers.Reshape` to `target_shape`. -/
def reshapeShape (target : List ℕ) : List ℕ → List ℕ
  | b :: _ => b :: target
  | s => s

/-- Output shape of the `resize` Lambda from `capsnet/activations.py`
(`tf.image.resize_nearest_neighbor` to `target_shape = (h, w)`). -/
def resizeShape (th tw : ℕ) : List ℕ → List ℕ
  | [b, _, _, c] => [b, th, tw, c]
  | s => s

/-- Modelled from the spec: `FeatureCapsule` (external collaborator, its
implementation file is not part of the analysed sources) groups the
convolution output into capsules of dimension `capsuleDim` via a strided
valid convolution-like grouping with `channelsCount` channels, producing
a shape `(batch, capsules, capsuleDim)`. -/
def featureCapsShape (capsuleDim channelsCount kernel strides : ℕ) : List ℕ → List ℕ
  | [b, h, w, _] =>
      [b, ((h - kernel) / strides + 1) * ((w - kernel) / strides + 1) * channelsCount,
        capsuleDim]
  | s => s

/-- Modelled from the spec: `PredictionCapsule` (external collaborator)
emits one pose vector per class, shape `(batch, capsuleCount, capsuleDim)`. -/
def predictionCapsShape (capsuleCount capsuleDim : ℕ) : List ℕ → List ℕ
  | b :: _ => [b, capsuleCount, capsuleDim]
  | s => s

/-- Shape of the `length` Lambda output: the last axis is summed away,
`(batch, capsules, dim)` becomes `(batch, capsules)`. -/
def lengthShape : List ℕ → List ℕ
  | [b, n, _] => [b, n]
  | s => s

/-- Modelled from the spec: `Mask` (external collaborator) zeroes all
prediction capsules except one and flattens to `(batch, bins * dim)`. -/
def maskShape : List ℕ → List ℕ
  | [b, n, d] => [b, n * d]
  | s => s

/-- Shape propagation through the decoder `models.Sequential` of
`capsnet/network.py` (lines 107-161), in the exact layer order of the
source: dense(400), reshape(5,5,16), resize(8,8), conv2d(4, same),
resize(16,16), conv2d(8, same), resize(image_size), conv2d(16, same),
conv2d(3, same), relu activation. -/
def decoderShape (imageH imageW : ℕ) (s : List ℕ) : List ℕ :=
  activationShape
    (conv2dSameShape 3
      (conv2dSameShape 16
        (resizeShape imageH imageW
          (conv2dSameShape 8
            (resizeShape 16 16
              (conv2dSameShape 4
                (resizeShape 8 8
                  (reshapeShape [5, 5, 16]
                    (denseShape 400 s)))))))))

/-- The three output shapes of the two models built by `CapsNet.__init__`
(`capsnet/network.py`): the `train` model's classification output and
reconstruction output, and the `test` model's output. -/
structure BuiltShapes where
  trainClassification : List ℕ
  trainReconstruction : List ℕ
  testOutput : List ℕ
  deriving DecidableEq, Repr

/-- Shape propagation through the graph assembled by `CapsNet.__init__`:
input → conv2d(valid, stride 1) → dropout → feature capsules (stride 2)
→ prediction capsules → `length` for the classification output, and
prediction capsules → mask → decoder for the reconstruction output. -/
def capsNetShapes (batch : ℕ) (inputShape : List ℕ) (bins : ℕ)
    (initConvFilters initConvKernel featureCapsKernel featureCapsDim
      featureCapsChannels predictionCapsDim imageH imageW : ℕ) : BuiltShapes :=
  let x := batch :: inputShape
  let conv := conv2dValidShape initConvFilters initConvKernel 1 x
  let dropped := dropoutShape conv
  let fc := featureCapsShape featureCapsDim featureCapsChannels featureCapsKernel 2 dropped
  let pc := predictionCapsShape bins predictionCapsDim fc
  let classOut := lengthShape pc
  let masked := maskShape pc
  ⟨classOut, decoderShape imageH imageW masked, classOut⟩

/-- Counterexample for C2: with `input_shape=(28,28,1)`, `bins=5`, all
other constructor parameters at their source defaults (conv 256/9,
feature capsules 5/16/16, prediction dim 32, `image_size=(32,32)`) and a
batch of 4, the `train` model's reconstruction output has shape
`(4,32,32,3)` and therefore is not `(4,28,28,1)` as the claim states. -/
theorem capsNetShapes_reconstruction_cex :
    (capsNetShapes 4 [28, 28, 1] 5 256 9 5 16 16 32 32 32).trainReconstruction
        = [4, 32, 32, 3] ∧
      ¬ (capsNetShapes 4 [28, 28, 1] 5 256 9 5 16 16 32 32
          32).trainReconstruction = [4, 28, 28, 1] := by
  decide

/-- C2 (amended): with `input_shape=(28,28,1)`, `bins=5`, defaults
otherwise, and a batch of 4, the `train` model's classification output
has shape `(4,5)`, its reconstruction output has shape `(4,32,32,3)`
(the decoder upsamples to the default `image_size=(32,32)` and its final
convolution has 3 channels), and the `test` model's output has shape
`(4,5)` given images alone. -/
theorem capsNetShapes_end_to_end :
    capsNetShapes 4 [28, 28, 1] 5 256 9 5 16 16 32 32 32 =
      ⟨[4, 5], [4, 32, 32, 3], [4, 5]⟩ := by
  decide

/-- A weights blob: the per-layer weight contents of a model, as an
association list from layer name to an abstract content token.  Keras
stores the `train` model's weights in one `weights.h5` file keyed by
layer name. -/
abbrev Weights := List (String × ℕ)

/-- One keras model as the archive codec sees it: its declarative
architecture (the ordered layer names from `to_yaml`) and its weights. -/
structure ModelGraph where
  arch : List String
  weights : Weights
  deriving DecidableEq, Repr

/-- The two-model bundle held in `CapsNet._models`. -/
structure Bundle where
  train : ModelGraph
  test : ModelGraph
  deriving DecidableEq, Repr

/-- One member of the tar archive written by `CapsNet.save`. -/
inductive Entry where
  | yml (arch : List String)
  | blob (w : Weights)
  | labelList (ls : List String)
  deriving DecidableEq, Repr

/-- The tar archive: named members in the order they were added. -/
structure Archive where
  members : List (String × Entry)
  deriving DecidableEq, Repr

/-- Member lookup, as `tarfile` resolves a member name. -/
def Archive.find (a : Archive) (name : String) : Option Entry :=
  List.lookup name a.members

/-- The archive-content part of `CapsNet.save` (`capsnet/network.py`
lines 325-348): one `{m}.yml` per model in `{train, test}` order, then
`weights.h5` saved from the `train` model, then `labels.yml` holding the
label names. -/
def saveArchive (b : Bundle) (names : List String) : Archive :=
  ⟨[("train.yml", Entry.yml b.train.arch),
    ("test.yml", Entry.yml b.test.arch),
    ("weights.h5", Entry.blob b.train.weights),
    ("labels.yml", Entry.labelList names)]⟩

/-- Reading an architecture member: a missing member is a fatal
`KeyError`, as raised by `tar.extractfile` on an absent name. -/
def getYml : Option Entry → Except String (List String)
  | some (Entry.yml a) => Except.ok a
  | some _ => Except.error "member is not an architecture description"
  | none => Except.error "KeyError: missing archive member"

/-- Reading the weights member; missing means a fatal `KeyError` from
`tar.extract`. -/
def getBlob : Option Entry → Except String Weights
  | some (Entry.blob w) => Except.ok w
  | some _ => Except.error "member is not a weights blob"
  | none => Except.error "KeyError: missing archive member"

/-- Reading the label-list member; missing means a fatal `KeyError`. -/
def getLabelList : Option Entry → Except String (List String)
  | some (Entry.labelList ls) => Except.ok ls
  | some _ => Except.error "member is not a label list"
  | none => Except.error "KeyError: missing archive member"

/-- Modelled from the spec: keras `load_weights` without `by_name`
(external library code) restores the blob into the full model
positionally; it succeeds only when the blob's layer structure matches
the model's architecture, and then every layer receives its stored
weights. -/
def fullLoad (arch : List String) (blob : Weights) : Except String Weights :=
  if blob.map Prod.fst = arch then Except.ok blob
  else Except.error "shape mismatch between stored weights and architecture"

/-- Modelled from the spec: keras `load_weights(..., by_name=True)`
(external library code) restores exactly those layers of the target
model whose name appears in the blob, matching by exact layer name;
extra or missing layers are tolerated. -/
def byNameLoad (arch : List String) (blob : Weights) : Weights :=
  arch.filterMap fun n => (List.lookup n blob).map fun w => (n, w)

/-- What a successful `CapsNet.load` returns: the reconstructed bundle
and the label list. -/
structure LoadResult where
  bundle : Bundle
  labels : List String
  deriving DecidableEq, Repr

/-- `CapsNet.load` (`capsnet/network.py` lines 350-395), in source
order: read `train.yml` and `test.yml`, extract `weights.h5`, load it
fully into the `train` model and by name into the `test` model, then
read `labels.yml`.  Each step's failure aborts the whole load. -/
def loadArchive (a : Archive) : Except String LoadResult :=
  match getYml (a.find "train.yml") with
  | Except.error e => Except.error e
  | Except.ok trainArch =>
    match getYml (a.find "test.yml") with
    | Except.error e => Except.error e
    | Except.ok testArch =>
      match getBlob (a.find "weights.h5") with
      | Except.error e => Except.error e
      | Except.ok blob =>
        match fullLoad trainArch blob with
        | Except.error e => Except.error e
        | Except.ok trainW =>
          match getLabelList (a.find "labels.yml") with
          | Except.error e => Except.error e
          | Except.ok names =>
              Except.ok ⟨⟨⟨trainArch, trainW⟩, ⟨testArch, byNameLoad testArch blob⟩⟩, names⟩

lemma loadArchive_saveArchive (b : Bundle) (names : List String)
    (hfull : b.train.weights.map Prod.fst = b.train.arch) :
    loadArchive (saveArchive b names) =
      Except.ok ⟨⟨b.train, ⟨b.test.arch, byNameLoad b.test.arch b.train.weights⟩⟩, names⟩ := by
  simp [loadArchive, saveArchive, Archive.find, List.lookup, getYml, getBlob,
    getLabelList, fullLoad, hfull]

lemma byNameLoad_restores (testW trainW : Weights)
    (hshare : ∀ p ∈ testW, List.lookup p.1 trainW = some p.2) :
    byNameLoad (testW.map Prod.fst) trainW = testW := by
  induction testW with
  | nil => rfl
  | cons p rest ih =>
    have hp : List.lookup p.1 trainW = some p.2 := hshare p (List.mem_cons_self p rest)
    simp only [List.map_cons, byNameLoad, List.filterMap_cons, hp, Option.map_some']
    refine congrArg (List.cons p) ?_
    exact ih fun q hq => hshare q (List.mem_cons_of_mem p hq)

/-- C1: for every bundle whose stored `train` weights match its `train`
architecture and whose `test` model shares its weights with the `train`
model by layer name (as built by `CapsNet.__init__`, where both models
are assembled from the same layer objects), `load` applied to the
archive produced by `save` yields a `test` model equal to the original
one — weights restored by exact layer-name match — and hence any
prediction function applied to a fixed input batch returns the same
numeric predictions as on the original bundle. -/
theorem save_load_roundtrip_preserves_predictions (b : Bundle) (names : List String)
    (hfull : b.train.weights.map Prod.fst = b.train.arch)
    (htest : b.test.weights.map Prod.fst = b.test.arch)
    (hshare : ∀ p ∈ b.test.weights, List.lookup p.1 b.train.weights = some p.2) :
    ∃ r : LoadResult, loadArchive (saveArchive b names) = Except.ok r ∧
      r.bundle.test = b.test ∧
      ∀ {Input Output : Type} (predict : ModelGraph → Input → Output) (X : Input),
        predict r.bundle.test X = predict b.test X := by
  have h2 : byNameLoad b.test.arch b.train.weights = b.test.weights := by
    rw [← htest]
    exact byNameLoad_restores _ _ hshare
  have hts : ModelGraph.mk b.test.arch (byNameLoad b.test.arch b.train.weights) = b.test := by
    rw [h2]
  refine ⟨_, loadArchive_saveArchive b names hfull, hts, ?_⟩
  intro Input Output predict X
  exact congrArg (fun g => predict g X) hts

/-- Shared concrete bundle for the round-trip witnesses: the `test`
model's layers are a by-name subset of the `train` model's. -/
def sampleBundle : Bundle :=
  ⟨⟨["encoder_conv2d", "encoder_pred_caps", "decoder_dense"],
    [("encoder_conv2d", 1), ("encoder_pred_caps", 2), ("decoder_dense", 3)]⟩,
   ⟨["encoder_conv2d", "encoder_pred_caps"],
    [("encoder_conv2d", 1), ("encoder_pred_caps", 2)]⟩⟩

/-- Witness for C1: the round-trip theorem applied to `sampleBundle`. -/
theorem save_load_roundtrip_preserves_predictions_witness :
    ∃ r : LoadResult,
      loadArchive (saveArchive sampleBundle ["alice"]) = Except.ok r ∧
        r.bundle.test = sampleBundle.test ∧
        ∀ {Input Output : Type} (predict : ModelGraph → Input → Output) (X : Input),
          predict r.bundle.test X = predict sampleBundle.test X :=
  save_load_roundtrip_preserves_predictions sampleBundle ["alice"]
    (by decide) (by decide) (by decide)

/-- C9: for every bundle whose stored `train` weights match its `train`
architecture, the label list returned by `load` on the archive produced
by `save b labels` is exactly `labels`, element-for-element in order. -/
theorem save_load_label_roundtrip (b : Bundle) (names : List String)
    (hfull : b.train.weights.map Prod.fst = b.train.arch) :
    ∃ r : LoadResult, loadArchive (saveArchive b names) = Except.ok r ∧
      r.labels = names :=
  ⟨_, loadArchive_saveArchive b names hfull, rfl⟩

/-- Witness for C9: the label round-trip applied to `sampleBundle` and a
two-element ordered label list. -/
theorem save_load_label_roundtrip_witness :
    ∃ r : LoadResult,
      loadArchive (saveArchive sampleBundle ["alice", "bob"]) = Except.ok r ∧
        r.labels = ["alice", "bob"] :=
  save_load_label_roundtrip sampleBundle ["alice", "bob"] (by decide)

/-- C7: if any required member (`train.yml`, `test.yml`, `weights.h5`
or `labels.yml`) is missing from the archive, `load` fails with an
error — it never returns a partially reconstructed bundle. -/
theorem load_missing_member_fatal (a : Archive)
    (h : a.find "train.yml" = none ∨ a.find "test.yml" = none ∨
      a.find "weights.h5" = none ∨ a.find "labels.yml" = none) :
    ∃ e, loadArchive a = Except.error e := by
  rcases h with h | h | h | h
  · exact ⟨"KeyError: missing archive member", by simp [loadArchive, h, getYml]⟩
  · cases h1 : getYml (a.find "train.yml") with
    | error e => exact ⟨e, by simp [loadArchive, h1]⟩
    | ok ta =>
      exact ⟨"KeyError: missing archive member", by simp only [loadArchive, h1]; simp [h, getYml]⟩
  · cases h1 : getYml (a.find "train.yml") with
    | error e => exact ⟨e, by simp [loadArchive, h1]⟩
    | ok ta =>
      cases h2 : getYml (a.find "test.yml") with
      | error e => exact ⟨e, by simp [loadArchive, h1, h2]⟩
      | ok tb =>
        exact ⟨"KeyError: missing archive member", by simp only [loadArchive, h1, h2]; simp [h, getBlob]⟩
  · cases h1 : getYml (a.find "train.yml") with
    | error e => exact ⟨e, by simp [loadArchive, h1]⟩
    | ok ta =>
      cases h2 : getYml (a.find "test.yml") with
      | error e => exact ⟨e, by simp [loadArchive, h1, h2]⟩
      | ok tb =>
        cases h3 : getBlob (a.find "weights.h5") with
        | error e => exact ⟨e, by simp [loadArchive, h1, h2, h3]⟩
        | ok blob =>
          cases h4 : fullLoad ta blob with
          | error e => exact ⟨e, by simp [loadArchive, h1, h2, h3, h4]⟩
          | ok tw =>
            exact ⟨"KeyError: missing archive member",
              by simp only [loadArchive, h1, h2, h3, h4]; simp [h, getLabelList]⟩

/-- A concrete archive with `weights.h5` absent, for the C7 witness. -/
def archiveMissingWeights : Archive :=
  ⟨[("train.yml", Entry.yml ["encoder_conv2d"]),
    ("test.yml", Entry.yml ["encoder_conv2d"]),
    ("labels.yml", Entry.labelList ["alice"])]⟩

/-- Witness for C7: loading the archive that lacks `weights.h5` fails. -/
theorem load_missing_member_fatal_witness :
    ∃ e, loadArchive archiveMissingWeights = Except.error e :=
  load_missing_member_fatal archiveMissingWeights (by decide)

/-- One file-handling statement of the weights sections of
`CapsNet.save` (lines 336-339) and `CapsNet.load` (lines 383-387). -/
inductive FileStep where
  | createTmp
  | addToArchive
  | loadWeightsInto
  | removeTmp
  deriving DecidableEq, Repr

/-- Effect of one statement on whether the temporary weights file
exists on disk: `save_weights` / `tar.extract` create it, `os.remove`
deletes it, the other statements leave it alone. -/
def stepTmp : FileStep → Bool → Bool
  | FileStep.createTmp, _ => true
  | FileStep.removeTmp, _ => false
  | _, tmp => tmp

/-- Straight-line execution with failure injection: `raisesAt s = true`
means statement `s` raises when executed.  A raising statement halts the
run and the `.error` value records whether the temporary file still
exists at the moment the error propagates to the caller; `.ok` records
it at normal completion.  The source has no `try`/`finally` around
these statements, so nothing runs after a raise. -/
def runSteps (raisesAt : FileStep → Bool) : List FileStep → Bool → Except Bool Bool
  | [], tmp => Except.ok tmp
  | s :: rest, tmp =>
      if raisesAt s then Except.error tmp
      else runSteps raisesAt rest (stepTmp s tmp)

/-- The weights section of `CapsNet.save`: `save_weights` writes
`tmp_weights`, `tar.add` archives it, `os.remove` deletes it. -/
def saveWeightsProg : List FileStep :=
  [FileStep.createTmp, FileStep.addToArchive, FileStep.removeTmp]

/-- The weights section of `CapsNet.load`: `tar.extract` writes
`weights.h5`, two `load_weights` calls read it, `os.remove` deletes it. -/
def loadWeightsProg : List FileStep :=
  [FileStep.createTmp, FileStep.loadWeightsInto, FileStep.loadWeightsInto,
    FileStep.removeTmp]

/-- Counterexample for C8: it is not the case that on every execution
path of the save/load weights sections an error propagates only with
the temporary file already removed — injecting a failure at `tar.add`
falsifies it (the file still exists when the error reaches the caller). -/
theorem tmp_cleanup_cex :
    ¬ ∀ (raisesAt : FileStep → Bool) (t : Bool),
        (runSteps raisesAt saveWeightsProg false = Except.error t ∨
          runSteps raisesAt loadWeightsProg false = Except.error t) →
        t = false := by
  intro hAll
  have h := hAll (fun s => decide (s = FileStep.addToArchive)) true (Or.inl rfl)
  exact Bool.noConfusion h

/-- C8 (amended): the temporary weights file is removed on the
successful paths of both sections, but when `tar.add` raises during
`save`, or `load_weights` raises during `load`, the temporary file is
NOT removed — it still exists when the error propagates, because
neither section has a `try`/`finally` cleanup. -/
theorem tmp_cleanup_only_on_success :
    runSteps (fun _ => false) saveWeightsProg false = Except.ok false ∧
      runSteps (fun _ => false) loadWeightsProg false = Except.ok false ∧
      runSteps (fun s => decide (s = FileStep.addToArchive)) saveWeightsProg false =
        Except.error true ∧
      runSteps (fun s => decide (s = FileStep.loadWeightsInto)) loadWeightsProg false =
        Except.error true :=
  ⟨rfl, rfl, rfl, rfl⟩

/-- The attribute state of a Python `CapsNet` instance: `none` models an
attribute that was never assigned (so reading it raises
`AttributeError`).  `modelsLoaded` holds the bundle placed into
`self._models`. -/
structure PyCapsNet where
  bins : Option ℕ
  history : Option (List ℚ)
  modelsLoaded : Option Bundle
  deriving DecidableEq, Repr

/-- The `skip_init=True` path of `CapsNet.__init__` (lines 64-67): it
sets `self._models = {}` and returns before `self.bins = bins` runs, so
neither `bins` nor `history` is ever assigned. -/
def initSkip : PyCapsNet :=
  { bins := none, history := none, modelsLoaded := none }

/-- The instance state produced by `CapsNet.load` (lines 350-395): the
network is created via `cls(None, None, skip_init=True)`, its `_models`
entries are filled from the archive, and no other attribute is ever
assigned. -/
def loadNetworkState (r : LoadResult) : PyCapsNet :=
  { initSkip with modelsLoaded := some r.bundle }

/-- The filename-building prefix of `CapsNet.save` (lines 315-322):
reading `self.history` is wrapped in `try/except AttributeError` with
`acc` defaulting to 0, but the `self.bins` read in the f-string is
outside any try block, so a missing `bins` attribute raises an uncaught
`AttributeError`. -/
def saveFilenameParts (net : PyCapsNet) : Except String (ℕ × ℕ) :=
  let acc : ℕ :=
    match net.history with
    | some h => Int.toNat ⌊h.foldr max 0 * 100⌋
    | none => 0
  match net.bins with
  | some b => Except.ok (b, acc)
  | none => Except.error "AttributeError: CapsNet object has no attribute bins"

/-- C10: every instance state returned by `CapsNet.load` lacks the
`bins` attribute (the `skip_init` constructor path returns before
assigning it and `load` never sets it), so calling `save` on a loaded
network raises an uncaught `AttributeError` while building the archive
filename — a loaded model can never be re-saved. -/
theorem loaded_network_cannot_be_saved (r : LoadResult) :
    (loadNetworkState r).bins = none ∧
      saveFilenameParts (loadNetworkState r) =
        Except.error "AttributeError: CapsNet object has no attribute bins" :=
  ⟨rfl, rfl⟩
